import Mathlib

/-!
Verification of the experiment-run-coordinator subsystem of an ML training
framework (run-directory resolution, advisory lock files, config diffing and
persistence, checkpoint save/load) against its natural-language specification.

The definitions below are shallow embeddings of the Python functions in
`ml/trainers/base.py` and `ml/core/state.py`.  Filesystem state is made
explicit: a run directory's lock files become a record of booleans, the
checkpoints directory becomes an association list keyed by step count together
with an optional "latest" symlink target, and the persisted `config.yaml`
becomes an optional configuration tree.  Python integers are modelled as `Int`
(`Int.emod` agrees with Python `%` for positive moduli) and run-directory
indices as `Nat`.
-/

namespace Ml

/-! ## Run state (`ml/core/state.py`, class `State`) -/

/-- Embedding of `State`: the five counters plus the raw phase string. -/
structure State where
  num_epochs : Int
  num_steps : Int
  num_samples : Int
  num_valid_steps : Int
  num_test_steps : Int
  raw_phase : String
deriving DecidableEq

/-- Embedding of `State.init_state`. -/
def State.init_state : State :=
  { num_epochs := 0, num_steps := 0, num_samples := 0, num_valid_steps := 0
    num_test_steps := 0, raw_phase := "train" }

/-! ## Lock files (`ml/trainers/base.py`, lines 61-86)

A run directory carries up to three lock files, `.lock_running`,
`.lock_scheduled` and `.lock_ckpt`.  A single lock file is modelled as
`Option Nat`: `some pid` means the file exists with the owning process id as
content, `none` means it is absent. -/

/-- The three lock kinds of `LockType = Literal["running", "scheduled", "ckpt"]`,
as the existence state of the three lock files of one run directory. -/
structure LockState where
  running : Bool
  scheduled : Bool
  ckpt : Bool
deriving DecidableEq

/-- Embedding of `has_lock_file(exp_dir)` with `lock_type=None`: true when any
of the three lock files exists in the directory. -/
def has_lock_file (ls : LockState) : Bool :=
  ls.running || ls.scheduled || ls.ckpt

/-- Embedding of `add_lock_file(exp_dir, lock_type, exists_ok=...)` acting on a
single lock file.  The file content `PID: <pid>` is modelled by the pid itself.
`Except.error` models the raised `RuntimeError`. -/
def add_lock_file (lock_file : Option Nat) (pid : Nat) (exists_ok : Bool) :
    Except String (Option Nat) :=
  match lock_file with
  | some c => if exists_ok then Except.ok (some c) else Except.error "Lock file already exists"
  | none => Except.ok (some pid)

/-- Embedding of `remove_lock_file(exp_dir, lock_type, missing_ok=...)` acting
on a single lock file.  On success it returns the new file state together with
the boolean result of the Python function (whether a removal occurred). -/
def remove_lock_file (lock_file : Option Nat) (missing_ok : Bool) :
    Except String (Option Nat × Bool) :=
  match lock_file with
  | some _ => Except.ok (none, true)
  | none =>
    if missing_ok then Except.ok (none, false) else Except.error "Lock file not found"

/-! ## Run-id resolution (`ml/trainers/base.py`, `get_run_id`, lines 109-126)

The relevant filesystem state under `base_dir/exp_name/` is the list of run
directories: entry `i` of the list describes `run_{i}` (`none` if the
directory is absent, `some ls` if it exists with lock state `ls`); run
directories beyond the end of the list are absent. -/

/-- The loop condition of `get_run_id`: `exp_dir.is_dir() and
has_lock_file(exp_dir)` for one directory entry. -/
def dirClaimed : Option LockState → Bool
  | none => false
  | some ls => has_lock_file ls

/-- The directory entry for `run_{i}` (absent beyond the end of the list). -/
def claimedAt (dirs : List (Option LockState)) (i : Nat) : Bool :=
  dirClaimed (dirs.getD i none)

/-- The `while` loop of `get_run_id`, which walks `run_id = 0, 1, 2, ...` as
long as the directory exists and has a lock file.  The list argument is the
suffix of directory entries starting at the current `run_id`. -/
def get_run_id_loop : List (Option LockState) → Nat → Nat
  | [], run_id => run_id
  | d :: rest, run_id =>
    if dirClaimed d then get_run_id_loop rest (run_id + 1) else run_id

/-- Embedding of `get_run_id(base_run_dir, exp_name)`. -/
def get_run_id (dirs : List (Option LockState)) : Nat :=
  get_run_id_loop dirs 0

/-! ## Checkpoint scheduling (`ml/trainers/base.py`, `should_checkpoint`,
lines 305-309, and `CheckpointConfig`, lines 224-227) -/

/-- Embedding of the `CheckpointConfig` dataclass. -/
structure CheckpointConfig where
  save_every_n_steps : Option Int
  only_save_most_recent : Bool
deriving DecidableEq

/-- Embedding of `BaseTrainer.should_checkpoint(state)`.  Defined for
`save_every_n_steps ≠ some 0`; Python would raise `ZeroDivisionError` at zero,
and for a positive modulus `Int.emod` agrees with Python `%`. -/
def should_checkpoint (cfg : CheckpointConfig) (st : State) : Bool :=
  match cfg.save_every_n_steps with
  | some n => if st.num_steps % n == 0 then true else false
  | none => false

/-! ## Checkpoints (`ml/trainers/base.py`, lines 89-102 and 311-364)

`get_ckpt_path` addresses checkpoint data files as
`checkpoints/ckpt.{num_steps}.pt` and the movable "latest" alias as
`checkpoints/ckpt.pt`.  The checkpoints directory is therefore modelled as an
association list from step counts to serialized bundles, together with the
optional symlink target of the alias and the `.lock_ckpt` file of the run
directory.  Component state dicts (model/task/optimizer/scheduler) are opaque
values of a type parameter `α`; `update_state_dict` and `load_state_dict` are
no-ops on the base trainer and extra hook-contributed state is not modelled. -/

/-- The serialized checkpoint bundle written by `torch.save`: the `state_dict`
mapping with fixed keys `model`, `task`, `optim`, `lr_sched`, `state`. -/
structure StateDict (α : Type) where
  model : α
  task : α
  optim : α
  lr_sched : α
  state : State
deriving DecidableEq

/-- The observable filesystem state of one run's checkpoints: data files keyed
by step count, the symlink target of the `ckpt.pt` alias, and the `.lock_ckpt`
lock file. -/
structure CkptFS (α : Type) where
  files : List (Int × StateDict α)
  latest : Option Int
  ckptLock : Bool
deriving DecidableEq

/-- Look up the data file `ckpt.{step}.pt`. -/
def findFile (fs : CkptFS α) (step : Int) : Option (StateDict α) :=
  (fs.files.find? (fun p => p.1 == step)).map (fun p => p.2)

/-- Existence of the data file `ckpt.{step}.pt`. -/
def fileExists (fs : CkptFS α) (step : Int) : Bool :=
  (findFile fs step).isSome

/-- Embedding of `last_ckpt_path.exists()`: `Path.exists` follows symlinks, so
the alias "exists" exactly when it is present and its target file exists. -/
def latestExists (fs : CkptFS α) : Bool :=
  match fs.latest with
  | none => false
  | some t => fileExists fs t

/-- A well-formed alias: absent, or pointing at an existing data file (no
dangling symlink). -/
def latestOk (fs : CkptFS α) : Bool :=
  match fs.latest with
  | none => true
  | some t => fileExists fs t

/-- Embedding of `torch.save(state_dict, ckpt_path)`: (over)write the data
file for `step`. -/
def insertFile (files : List (Int × StateDict α)) (step : Int) (sd : StateDict α) :
    List (Int × StateDict α) :=
  files.filter (fun p => !(p.1 == step)) ++ [(step, sd)]

/-- Embedding of `base_ckpt.unlink()`: delete the data file for `step`. -/
def removeFile (files : List (Int × StateDict α)) (step : Int) :
    List (Int × StateDict α) :=
  files.filter (fun p => !(p.1 == step))

/-- The filesystem effects of `save_checkpoint`, in the order the code
performs them. -/
inductive CkptEv where
  | unlinkFile (step : Int)
  | unlinkAlias
  | writeFile (step : Int)
  | makeAlias (step : Int)
  | addLock
  | afterSaveHook (step : Int)
deriving DecidableEq

/-- Embedding of lines 352-357 of `save_checkpoint`: if
`last_ckpt_path.exists()` (the alias is present with a live target), the
retain-only-most-recent policy optionally deletes the alias's resolved target
file, and then the alias itself is unlinked. -/
def aliasRemoval (only_recent : Bool) (fs : CkptFS α) : CkptFS α × List CkptEv :=
  if latestExists fs then
    let step0 : CkptFS α × List CkptEv :=
      if only_recent then
        match fs.latest with
        | some t =>
          if fileExists fs t then
            ({ fs with files := removeFile fs.files t }, [CkptEv.unlinkFile t])
          else (fs, [])
        | none => (fs, [])
      else (fs, [])
    ({ step0.1 with latest := none }, step0.2 ++ [CkptEv.unlinkAlias])
  else (fs, [])

/-- Embedding of lines 359-362 of `save_checkpoint`:
`last_ckpt_path.symlink_to(ckpt_path)`, which raises a caught-and-logged
`FileExistsError` (leaving the alias unchanged) if an alias file is still
present. -/
def aliasCreate (s : Int) (fs : CkptFS α) : CkptFS α × List CkptEv :=
  match fs.latest with
  | none => ({ fs with latest := some s }, [CkptEv.makeAlias s])
  | some _ => (fs, [])

/-- Embedding of `BaseTrainer.save_checkpoint(state, task, model, optim,
lr_sched)` (lines 330-364).  Returns the new filesystem state together with
the ordered list of effects.  `is_m` is the ambient `is_master()` result,
modelled from the spec as a boolean since `ml/utils/distributed.py` is not in
the sources; `only_recent` is `config.checkpoint.only_save_most_recent`.
Faithful to the code's order: when the alias exists its target is optionally
deleted and the alias removed *before* `torch.save` writes the new bundle;
then the alias is re-created, the `ckpt` lock re-acquired with
`exists_ok=True`, and the after-save hook invoked. -/
def save_checkpoint (is_m : Bool) (only_recent : Bool) (st : State)
    (model task optim lr_sched : α) (fs : CkptFS α) : CkptFS α × List CkptEv :=
  if is_m then
    let s := st.num_steps
    let sd : StateDict α := ⟨model, task, optim, lr_sched, st⟩
    let step1 := aliasRemoval only_recent fs
    let fs2 : CkptFS α := { step1.1 with files := insertFile step1.1.files s sd }
    let step3 := aliasCreate s fs2
    ({ step3.1 with ckptLock := true },
      step1.2 ++ [CkptEv.writeFile s] ++ step3.2 ++ [CkptEv.addLock, CkptEv.afterSaveHook s])
  else (fs, [])

/-- Embedding of `BaseTrainer.load_checkpoint(ckpt_path, ...)` (lines 311-328)
for the step-qualified path `checkpoints/ckpt.{step}.pt`: `torch.load` the
bundle (the returned `State` is the bundle's `state` field). -/
def load_checkpoint (fs : CkptFS α) (step : Int) : Option (StateDict α) :=
  findFile fs step

/-- `load_checkpoint` applied to the stepless path `checkpoints/ckpt.pt`:
`torch.load` follows the alias symlink to its target data file. -/
def load_latest (fs : CkptFS α) : Option (StateDict α) :=
  fs.latest.bind (fun t => findFile fs t)

/-- The empty checkpoints directory of a fresh run. -/
def emptyCkptFS (α : Type) : CkptFS α := ⟨[], none, false⟩

/-! ## Config trees and diffing (`ml/trainers/base.py`, lines 129-215)

An OmegaConf configuration is a tree of mappings (`DictConfig`), sequences
(`ListConfig`) and scalar leaves.  Scalars are modelled as strings, integers,
enumeration members (carrying the member name, which is what `cast_enums`
extracts via `k.name`) and the OmegaConf `MISSING` sentinel.  Floats are not
modelled.  `diff_configs` recurses through two trees; its recursion is
embedded with an explicit fuel argument (structural, so every theorem witness
evaluates by `rfl`), instantiated at `sizeOf first + sizeOf second`, which
strictly exceeds the recursion depth. -/

/-- A scalar configuration value. -/
inductive CLeaf where
  | str (s : String)
  | int (n : Int)
  | enumv (n : String)
  | missing
deriving DecidableEq

/-- A configuration tree (`DictConfig` / `ListConfig` / scalar leaf). -/
inductive Conf where
  | leaf (v : CLeaf)
  | dict (kvs : List (String × Conf))
  | arr (xs : List Conf)

/-- The `isinstance(..., (ListConfig, DictConfig))` test (`any_config`). -/
def isConfigNode : Conf → Bool
  | Conf.dict _ => true
  | Conf.arr _ => true
  | Conf.leaf _ => false

/-- The `OmegaConf.is_missing(cfg, key)` test on the stored value. -/
def isMissingNode : Conf → Bool
  | Conf.leaf CLeaf.missing => true
  | _ => false

/-- Embedding of `cast_enums(k)`: `k.name if isinstance(k, enum.Enum) else k`. -/
def castEnums : Conf → Conf
  | Conf.leaf (CLeaf.enumv n) => Conf.leaf (CLeaf.str n)
  | c => c

/-- The Python `!=` comparison as used at line 176, where at least one side is
a scalar (two containers were already sent to the recursive branch): two
scalars compare by value, and a scalar never equals a container. -/
def scalarNe (a b : Conf) : Bool :=
  match a, b with
  | Conf.leaf x, Conf.leaf y => !(x == y)
  | _, _ => true

/-- Rendering of the value type for non-str/int values, standing in for
Python's `f"... ({type(val)})"`. -/
def typeDesc : Conf → String
  | Conf.leaf (CLeaf.str _) => "str"
  | Conf.leaf (CLeaf.int _) => "int"
  | Conf.leaf (CLeaf.enumv _) => "Enum"
  | Conf.leaf CLeaf.missing => "missing"
  | Conf.dict _ => "DictConfig"
  | Conf.arr _ => "ListConfig"

/-- Python's f-string rendering of the `prefix` argument (`None` prints as
`"None"`). -/
def preStr : Option String → String
  | none => "None"
  | some p => p

/-- Embedding of the inner `get_diff_string(prefix, val)` (lines 145-148):
`str`, `float` and `int` values print as `prefix=value`, everything else as
`prefix= ... (type)`. -/
def get_diff_string (pre : Option String) (v : Conf) : String :=
  match v with
  | Conf.leaf (CLeaf.str s) => preStr pre ++ "=" ++ s
  | Conf.leaf (CLeaf.int n) => preStr pre ++ "=" ++ toString n
  | _ => preStr pre ++ "= ... (" ++ typeDesc v ++ ")"

/-- The keys of a `DictConfig`, in insertion order. -/
def keysOf (kvs : List (String × Conf)) : List String := kvs.map Prod.fst

/-- Key lookup `cfg[key]` in a `DictConfig`. -/
def lookupConf : List (String × Conf) → String → Option Conf
  | [], _ => none
  | (k, v) :: rest, key => if k == key then some v else lookupConf rest key

/-- The body of the loop over `first_keys.intersection(second_keys)` for one
common key `key` (lines 166-179): handle `MISSING` values, recurse when both
values are containers (`rec` is the recursive call), otherwise report the two
values when they differ after `cast_enums` normalization. -/
def keyDiff (rec : Conf → Conf → Option String → List String × List String)
    (kf ks : List (String × Conf)) (pre : Option String) (k : String) :
    List String × List String :=
  let subPre := match pre with | none => k | some p => p ++ "." ++ k
  match lookupConf kf k, lookupConf ks k with
  | some v1, some v2 =>
    if isMissingNode v1 || isMissingNode v2 then
      ((if isMissingNode v1 then [] else [get_diff_string (some subPre) v1]),
        (if isMissingNode v2 then [] else [get_diff_string (some subPre) v2]))
    else if isConfigNode v1 && isConfigNode v2 then rec v1 v2 (some subPre)
    else if scalarNe (castEnums v1) (castEnums v2) then
      ([get_diff_string (some subPre) v1], [get_diff_string (some subPre) v2])
    else ([], [])
  | _, _ => ([], [])

/-- The loop over the common keys, collecting both sides' lines.  Python
iterates the key-set intersection (each common key once, in unspecified set
order); only membership of the reported lines is meaningful. -/
def diffCommonF (rec : Conf → Conf → Option String → List String × List String)
    (kf ks : List (String × Conf)) (common : List String) (pre : Option String) :
    List String × List String :=
  (common.flatMap (fun k => (keyDiff rec kf ks pre k).1),
    common.flatMap (fun k => (keyDiff rec kf ks pre k).2))

/-- The body of the loop over common indices of two `ListConfig`s
(lines 189-193) for index `i`: recurse only when both elements are
containers; scalar elements at a common index are not compared. -/
def idxDiff (rec : Conf → Conf → Option String → List String × List String)
    (pre : Option String) (i : Nat) (x y : Conf) : List String × List String :=
  let subPre := match pre with | none => toString i | some p => p ++ "." ++ toString i
  if isConfigNode x && isConfigNode y then rec x y (some subPre) else ([], [])

/-- The loop over `range(min(len(first), len(second)))` of two `ListConfig`s,
starting at index `i`. -/
def diffListF (rec : Conf → Conf → Option String → List String × List String) :
    List Conf → List Conf → Nat → Option String → List String × List String
  | x :: xf, y :: xs, i, pre =>
    let head := idxDiff rec pre i x y
    let tail := diffListF rec xf xs (i + 1) pre
    (head.1 ++ tail.1, head.2 ++ tail.2)
  | _, _, _, _ => ([], [])

/-- Embedding of `diff_configs(first, second, prefix)` (lines 129-198), with
explicit structural fuel: mapping nodes report keys present on only one side
(using the raw f-string `f"{prefix}.{key}"`, which renders a `None` prefix as
`"None"`), then process common keys; sequence nodes report the trailing
elements of the longer side, then process common indices; any other
combination reports both values. -/
def diffF : Nat → Conf → Conf → Option String → List String × List String
  | 0, _, _, _ => ([], [])
  | fuel + 1, first, second, pre =>
    match first, second with
    | Conf.dict kf, Conf.dict ks =>
      let fk := keysOf kf
      let sk := keysOf ks
      let onlyF := (fk.filter (fun k => !(sk.contains k))).map
        (fun k => preStr pre ++ "." ++ k)
      let onlyS := (sk.filter (fun k => !(fk.contains k))).map
        (fun k => preStr pre ++ "." ++ k)
      let c := diffCommonF (fun a b p => diffF fuel a b p) kf ks
        (fk.filter (fun k => sk.contains k)) pre
      (onlyF ++ c.1, onlyS ++ c.2)
    | Conf.arr xf, Conf.arr xs =>
      let extraF := if xs.length < xf.length then
        (xf.drop xs.length).map (get_diff_string pre) else []
      let extraS := if xf.length < xs.length then
        (xs.drop xf.length).map (get_diff_string pre) else []
      let c := diffListF (fun a b p => diffF fuel a b p) xf xs 0 pre
      (extraF ++ c.1, extraS ++ c.2)
    | f, s => ([get_diff_string pre f], [get_diff_string pre s])

mutual

/-- The number of nodes of a configuration tree, used as recursion fuel; it
strictly exceeds the tree's depth. -/
def confFuel : Conf → Nat
  | Conf.leaf _ => 1
  | Conf.dict kvs => 1 + kvFuel kvs
  | Conf.arr xs => 1 + clFuel xs

/-- Total node count of the values of a `DictConfig`. -/
def kvFuel : List (String × Conf) → Nat
  | [] => 0
  | (_, v) :: rest => 1 + confFuel v + kvFuel rest

/-- Total node count of the elements of a `ListConfig`. -/
def clFuel : List Conf → Nat
  | [] => 0
  | x :: rest => 1 + confFuel x + clFuel rest

end

/-- Embedding of `diff_configs(first, second, prefix)`: the fuelled recursion
run with fuel strictly greater than the recursion depth. -/
def diff_configs (first second : Conf) (pre : Option String) :
    List String × List String :=
  diffF (confFuel first + confFuel second) first second pre

/-- The amended C8 claim's description of the common-index walk of two
sequence nodes, written from the claim's words for comparison with the
embedded `diff_configs`: at each common index, recurse — with the full
`diff_configs` itself — only when both elements are containers; a pair with a
scalar leaf on either side is never compared and contributes nothing,
whatever its values. -/
def seqDiffClaimed : List Conf → List Conf → Nat → Option String → List String × List String
  | x :: xf, y :: xs, i, pre =>
    let subPre := match pre with | none => toString i | some p => p ++ "." ++ toString i
    let head :=
      if isConfigNode x && isConfigNode y then diff_configs x y (some subPre) else ([], [])
    let tail := seqDiffClaimed xf xs (i + 1) pre
    (head.1 ++ tail.1, head.2 ++ tail.2)
  | _, _, _, _ => ([], [])

/-- Embedding of the module-level `save_config(exp_dir, raw_config)`
(lines 201-215).  The persisted `config.yaml` is `stored` (`none` when
absent).  Returns the new persisted config and the warning lines logged on an
overwrite: added keys marked `+ `, deleted keys marked `- ` (colorization and
the surrounding arrow glyph abstracted away). -/
def save_config (stored : Option Conf) (raw : Conf) : Option Conf × List String :=
  match stored with
  | some old =>
    let d := diff_configs raw old none
    if !d.1.isEmpty || !d.2.isEmpty then
      (some raw, d.1.map (fun k => "+ " ++ k) ++ d.2.map (fun k => "- " ++ k))
    else (some old, [])
  | none => (some raw, [])

/-- Embedding of `BaseTrainer.save_config(self)` (lines 291-292): it
delegates to the module-level `save_config` with no `is_master()` guard; the
ambient distributed rank is made explicit as the first argument and is not
consulted by the body. -/
def trainer_save_config (_is_m : Bool) (stored : Option Conf) (raw : Conf) :
    Option Conf × List String :=
  save_config stored raw

end Ml

namespace Ml

/-! ## Theorems for run-id resolution, lock files and checkpoint scheduling -/

theorem get_run_id_loop_spec (dirs : List (Option LockState)) :
    ∀ acc : Nat, ∃ k : Nat, get_run_id_loop dirs acc = acc + k ∧
      dirClaimed (dirs.getD k none) = false ∧
      ∀ i : Nat, i < k → dirClaimed (dirs.getD i none) = true := by
  induction dirs with
  | nil =>
    intro acc
    exact ⟨0, by simp [get_run_id_loop], by simp [dirClaimed], by omega⟩
  | cons d rest ih =>
    intro acc
    by_cases hd : dirClaimed d = true
    · obtain ⟨k, hk, hfree, hclaimed⟩ := ih (acc + 1)
      refine ⟨k + 1, ?_, ?_, ?_⟩
      · simp [get_run_id_loop, hd, hk]
        omega
      · simpa using hfree
      · intro i hi
        match i with
        | 0 => simpa using hd
        | j + 1 => simpa using hclaimed j (by omega)
    · refine ⟨0, ?_, ?_, by omega⟩
      · simp [get_run_id_loop, hd]
      · simpa using (Bool.not_eq_true _).mp hd

/-- C1: `get_run_id` returns the smallest non-negative integer id whose run
directory `run_{id}` is either absent or contains none of the three lock
files: the returned id is unclaimed, and every smaller id names a directory
that exists and has at least one lock file. -/
theorem get_run_id_returns_least_unclaimed (dirs : List (Option LockState)) :
    claimedAt dirs (get_run_id dirs) = false ∧
      ∀ i : Nat, i < get_run_id dirs → claimedAt dirs i = true := by
  obtain ⟨k, hk, hfree, hclaimed⟩ := get_run_id_loop_spec dirs 0
  have hid : get_run_id dirs = k := by simpa [get_run_id] using hk
  refine ⟨?_, ?_⟩
  · simpa [claimedAt, hid] using hfree
  · intro i hi
    exact hclaimed i (by omega)

/-- C1 witness: on the concrete filesystem where `run_0` exists with a
`running` lock, `run_1` is absent and `run_2` exists with a `ckpt` lock, the
resolved run id 1 is unclaimed and id 0 is claimed. -/
theorem get_run_id_returns_least_unclaimed_witness :
    claimedAt [some ⟨true, false, false⟩, none, some ⟨false, false, true⟩]
        (get_run_id [some ⟨true, false, false⟩, none, some ⟨false, false, true⟩]) = false ∧
      claimedAt [some ⟨true, false, false⟩, none, some ⟨false, false, true⟩] 0 = true := by
  have h := get_run_id_returns_least_unclaimed
    [some ⟨true, false, false⟩, none, some ⟨false, false, true⟩]
  exact ⟨h.1, h.2 0 (by decide)⟩

theorem find?_filter_ne (files : List (Int × StateDict α)) (s : Int) :
    (files.filter (fun p => !(p.1 == s))).find? (fun p => p.1 == s) = none := by
  refine List.find?_eq_none.mpr ?_
  intro x hx
  have hmem := List.of_mem_filter hx
  simp at hmem
  simp [hmem]

theorem findFile_insertFile (files : List (Int × StateDict α)) (latest : Option Int)
    (lk : Bool) (s : Int) (sd : StateDict α) :
    findFile (CkptFS.mk (insertFile files s sd) latest lk) s = some sd := by
  simp only [findFile, insertFile, List.find?_append, find?_filter_ne, Option.none_or]
  simp

theorem aliasRemoval_latest_none (only_recent : Bool) (fs : CkptFS α)
    (h : latestOk fs = true) : (aliasRemoval only_recent fs).1.latest = none := by
  unfold aliasRemoval
  by_cases hle : latestExists fs = true
  · simp [hle]
  · have hnone : fs.latest = none := by
      unfold latestOk at h
      unfold latestExists at hle
      cases hfs : fs.latest with
      | none => rfl
      | some t' =>
        rw [hfs] at h hle
        exact absurd h hle
    simp [hle, hnone]

theorem save_checkpoint_master_state (only_recent : Bool) (st : State)
    (m t o l : α) (fs : CkptFS α) (h : latestOk fs = true) :
    ((save_checkpoint true only_recent st m t o l fs).1).latest = some st.num_steps ∧
      findFile (save_checkpoint true only_recent st m t o l fs).1 st.num_steps =
        some ⟨m, t, o, l, st⟩ := by
  have h1 := aliasRemoval_latest_none only_recent fs h
  simp only [save_checkpoint, if_true, aliasCreate, h1]
  exact ⟨trivial, findFile_insertFile _ _ _ _ _⟩

/-- C2: acquiring a lock that already exists raises unless `exists_ok` is set,
in which case the call is a no-op leaving the lock content unchanged;
releasing an absent lock raises unless `missing_ok` is set, in which case the
call is a no-op returning `false`; releasing an existing lock removes it and
returns `true`. -/
theorem lock_file_error_handling :
    (∀ c pid : Nat, add_lock_file (some c) pid false =
      Except.error "Lock file already exists") ∧
    (∀ c pid : Nat, add_lock_file (some c) pid true = Except.ok (some c)) ∧
    (∀ pid : Nat, add_lock_file none pid false = Except.ok (some pid)) ∧
    (remove_lock_file none false = Except.error "Lock file not found") ∧
    (remove_lock_file none true = Except.ok (none, false)) ∧
    (∀ (c : Nat) (missing_ok : Bool),
      remove_lock_file (some c) missing_ok = Except.ok (none, true)) := by
  refine ⟨fun c pid => rfl, fun c pid => rfl, fun pid => rfl, rfl, rfl, fun c mok => rfl⟩

/-- C3: saving a checkpoint (on the master rank, with a non-dangling alias)
and immediately loading it back — either from the step-qualified path that
save wrote or from the latest alias — yields a bundle whose run state equals
the saved one (hence equal in all five counters and in phase). -/
theorem save_checkpoint_load_roundtrip (only_recent : Bool) (st : State)
    (m t o l : α) (fs : CkptFS α) (h : latestOk fs = true) :
    ∃ sd1 sd2 : StateDict α,
      load_checkpoint (save_checkpoint true only_recent st m t o l fs).1 st.num_steps =
          some sd1 ∧
        load_latest (save_checkpoint true only_recent st m t o l fs).1 = some sd2 ∧
        sd1.state = st ∧ sd2.state = st := by
  obtain ⟨hl, hf⟩ := save_checkpoint_master_state only_recent st m t o l fs h
  refine ⟨⟨m, t, o, l, st⟩, ⟨m, t, o, l, st⟩, ?_, ?_, rfl, rfl⟩
  · exact hf
  · simp [load_latest, hl, hf]

/-- C3 witness: saving at step 5 into an empty checkpoints directory and
loading back from `ckpt.5.pt` and from the alias recovers the saved state. -/
theorem save_checkpoint_load_roundtrip_witness :
    latestOk (emptyCkptFS Nat) = true ∧
      ∃ sd1 sd2 : StateDict Nat,
        load_checkpoint
            (save_checkpoint true false { State.init_state with num_steps := 5 } 1 2 3 4
              (emptyCkptFS Nat)).1 5 = some sd1 ∧
          load_latest
              (save_checkpoint true false { State.init_state with num_steps := 5 } 1 2 3 4
                (emptyCkptFS Nat)).1 = some sd2 ∧
          sd1.state = { State.init_state with num_steps := 5 } ∧
          sd2.state = { State.init_state with num_steps := 5 } :=
  ⟨rfl, save_checkpoint_load_roundtrip false { State.init_state with num_steps := 5 } 1 2 3 4
    (emptyCkptFS Nat) rfl⟩

theorem save_checkpoint_empty (only_recent : Bool) (st : State) (m t o l : α) :
    save_checkpoint true only_recent st m t o l (emptyCkptFS α) =
      (⟨[(st.num_steps, ⟨m, t, o, l, st⟩)], some st.num_steps, true⟩,
        [CkptEv.writeFile st.num_steps, CkptEv.makeAlias st.num_steps,
          CkptEv.addLock, CkptEv.afterSaveHook st.num_steps]) := rfl

/-- C4: starting from an empty checkpoints directory, two successive saves at
distinct step counts with `only_save_most_recent=true` leave exactly one data
file on disk — the one the second save wrote — plus the alias, which resolves
to the second bundle; with the default `only_save_most_recent=false`, both
data files are kept. -/
theorem only_save_most_recent_retention (st1 st2 : State)
    (m1 t1 o1 l1 m2 t2 o2 l2 : α) (h : st1.num_steps ≠ st2.num_steps) :
    ((save_checkpoint true true st2 m2 t2 o2 l2
          (save_checkpoint true true st1 m1 t1 o1 l1 (emptyCkptFS α)).1).1.files =
        [(st2.num_steps, ⟨m2, t2, o2, l2, st2⟩)] ∧
      (save_checkpoint true true st2 m2 t2 o2 l2
          (save_checkpoint true true st1 m1 t1 o1 l1 (emptyCkptFS α)).1).1.latest =
        some st2.num_steps ∧
      load_latest (save_checkpoint true true st2 m2 t2 o2 l2
          (save_checkpoint true true st1 m1 t1 o1 l1 (emptyCkptFS α)).1).1 =
        some ⟨m2, t2, o2, l2, st2⟩) ∧
    ((save_checkpoint true false st2 m2 t2 o2 l2
          (save_checkpoint true false st1 m1 t1 o1 l1 (emptyCkptFS α)).1).1.files =
        [(st1.num_steps, ⟨m1, t1, o1, l1, st1⟩), (st2.num_steps, ⟨m2, t2, o2, l2, st2⟩)] ∧
      (save_checkpoint true false st2 m2 t2 o2 l2
          (save_checkpoint true false st1 m1 t1 o1 l1 (emptyCkptFS α)).1).1.latest =
        some st2.num_steps) := by
  rw [save_checkpoint_empty, save_checkpoint_empty]
  have hb : (st1.num_steps == st2.num_steps) = false := by
    simp [h]
  constructor
  · refine ⟨?_, ?_, ?_⟩ <;>
      simp [save_checkpoint, aliasRemoval, aliasCreate, latestExists, fileExists,
        findFile, removeFile, insertFile, load_latest, hb]
  · constructor <;>
      simp [save_checkpoint, aliasRemoval, aliasCreate, latestExists, fileExists,
        findFile, removeFile, insertFile, hb]

/-- C4 witness: with saves at steps 1 and 2 from an empty directory, the
retention flag keeps only `ckpt.2.pt` while the default keeps both files. -/
theorem only_save_most_recent_retention_witness :
    (1 : Int) ≠ 2 ∧
      ((save_checkpoint true true { State.init_state with num_steps := 2 }
            (6 : Nat) 7 8 9
            (save_checkpoint true true { State.init_state with num_steps := 1 } 1 2 3 4
              (emptyCkptFS Nat)).1).1.files =
        [(2, ⟨6, 7, 8, 9, { State.init_state with num_steps := 2 }⟩)]) := by
  have h := only_save_most_recent_retention
    { State.init_state with num_steps := 1 } { State.init_state with num_steps := 2 }
    (1 : Nat) 2 3 4 6 7 8 9 (by decide)
  exact ⟨by decide, h.1.1⟩

theorem aliasRemoval_events (only_recent : Bool) (fs : CkptFS α) :
    ∀ e ∈ (aliasRemoval only_recent fs).2,
      e = CkptEv.unlinkAlias ∨ ∃ u : Int, e = CkptEv.unlinkFile u := by
  unfold aliasRemoval
  by_cases hle : latestExists fs = true
  · simp only [hle, if_true]
    by_cases ho : only_recent = true
    · simp only [ho, if_true]
      cases hfs : fs.latest with
      | none => simp
      | some t =>
        by_cases hf : fileExists fs t = true
        · simp [hf]
        · simp [hf]
    · simp [ho]
  · simp [hle]

theorem aliasCreate_events (s : Int) (fs : CkptFS α) :
    ∀ e ∈ (aliasCreate s fs).2, e = CkptEv.makeAlias s := by
  unfold aliasCreate
  cases hfs : fs.latest with
  | none => simp
  | some t => simp

/-- C5 counterexample: on the concrete run whose checkpoints directory holds
`ckpt.3.pt` with the alias pointing at it, saving at step 5 with the
retain-only-most-recent policy produces the effect sequence
unlink-target, unlink-alias, serialize, make-alias, lock, hook — the alias
removal happens strictly before the serialization, contradicting the claimed
serialize-first order. -/
theorem save_checkpoint_order_counterexample :
    ((save_checkpoint true true { State.init_state with num_steps := 5 } (1 : Nat) 1 1 1
        ⟨[(3, ⟨0, 0, 0, 0, { State.init_state with num_steps := 3 }⟩)], some 3, true⟩).2 =
      [CkptEv.unlinkFile 3, CkptEv.unlinkAlias, CkptEv.writeFile 5, CkptEv.makeAlias 5,
        CkptEv.addLock, CkptEv.afterSaveHook 5]) ∧
    List.indexOf CkptEv.unlinkAlias
        ((save_checkpoint true true { State.init_state with num_steps := 5 } (1 : Nat) 1 1 1
          ⟨[(3, ⟨0, 0, 0, 0, { State.init_state with num_steps := 3 }⟩)], some 3, true⟩).2) <
      List.indexOf (CkptEv.writeFile 5)
        ((save_checkpoint true true { State.init_state with num_steps := 5 } (1 : Nat) 1 1 1
          ⟨[(3, ⟨0, 0, 0, 0, { State.init_state with num_steps := 3 }⟩)], some 3, true⟩).2) := by
  decide

/-- C5 amended: on the master rank, `save_checkpoint` performs its effects in
this order — first remove the previous latest alias (deleting the alias's
target file first under the retain-only-most-recent policy), then serialize
the bundle to the step-qualified path, then create the new alias, then
re-acquire the ckpt lock tolerating a pre-existing lock, then invoke the
after-save hook. -/
theorem save_checkpoint_effect_order (only_recent : Bool) (st : State)
    (m t o l : α) (fs : CkptFS α) :
    ∃ rem mk : List CkptEv,
      (save_checkpoint true only_recent st m t o l fs).2 =
        rem ++ [CkptEv.writeFile st.num_steps] ++ mk ++
          [CkptEv.addLock, CkptEv.afterSaveHook st.num_steps] ∧
      (∀ e ∈ rem, e = CkptEv.unlinkAlias ∨ ∃ u : Int, e = CkptEv.unlinkFile u) ∧
      (∀ e ∈ mk, e = CkptEv.makeAlias st.num_steps) := by
  simp only [save_checkpoint, if_true]
  exact ⟨_, _, rfl, aliasRemoval_events only_recent fs, aliasCreate_events st.num_steps _⟩

theorem beq_comm_cleaf (x y : CLeaf) : (x == y) = (y == x) := by
  by_cases h : x = y
  · simp [h]
  · simp [h, Ne.symm h]

theorem scalarNe_comm (a b : Conf) : scalarNe a b = scalarNe b a := by
  cases a <;> cases b <;> simp [scalarNe, beq_comm_cleaf]

theorem keyDiff_symm (rec1 rec2 : Conf → Conf → Option String → List String × List String)
    (hsym : ∀ (v1 v2 : Conf) (p : Option String) (x : String),
      (x ∈ (rec1 v1 v2 p).1 ↔ x ∈ (rec2 v2 v1 p).2) ∧
      (x ∈ (rec1 v1 v2 p).2 ↔ x ∈ (rec2 v2 v1 p).1))
    (kf ks : List (String × Conf)) (pre : Option String) (k : String) (x : String) :
    (x ∈ (keyDiff rec1 kf ks pre k).1 ↔ x ∈ (keyDiff rec2 ks kf pre k).2) ∧
    (x ∈ (keyDiff rec1 kf ks pre k).2 ↔ x ∈ (keyDiff rec2 ks kf pre k).1) := by
  unfold keyDiff
  cases h1 : lookupConf kf k with
  | none =>
    cases h2 : lookupConf ks k with
    | none => simp
    | some v2 => simp
  | some v1 =>
    cases h2 : lookupConf ks k with
    | none => simp
    | some v2 =>
      simp only []
      by_cases hm : (isMissingNode v1 || isMissingNode v2) = true
      · have hm' : (isMissingNode v2 || isMissingNode v1) = true := by
          rw [Bool.or_comm] at hm; exact hm
        simp [hm, hm']
      · have hm' : ¬(isMissingNode v2 || isMissingNode v1) = true := by
          rw [Bool.or_comm] at hm; exact hm
        by_cases hcc : (isConfigNode v1 && isConfigNode v2) = true
        · have hcc' : (isConfigNode v2 && isConfigNode v1) = true := by
            rw [Bool.and_comm] at hcc; exact hcc
          simp only [hm, hm', hcc, hcc', if_false, if_true]
          exact hsym v1 v2 _ x
        · have hcc' : ¬(isConfigNode v2 && isConfigNode v1) = true := by
            rw [Bool.and_comm] at hcc; exact hcc
          by_cases hne : scalarNe (castEnums v1) (castEnums v2) = true
          · have hne' : scalarNe (castEnums v2) (castEnums v1) = true := by
              rw [scalarNe_comm] at hne; exact hne
            simp [hm, hm', hcc, hcc', hne, hne']
          · have hne' : ¬scalarNe (castEnums v2) (castEnums v1) = true := by
              rw [scalarNe_comm] at hne; exact hne
            simp [hm, hm', hcc, hcc', hne, hne']

theorem diffCommonF_symm
    (rec1 rec2 : Conf → Conf → Option String → List String × List String)
    (hsym : ∀ (v1 v2 : Conf) (p : Option String) (x : String),
      (x ∈ (rec1 v1 v2 p).1 ↔ x ∈ (rec2 v2 v1 p).2) ∧
      (x ∈ (rec1 v1 v2 p).2 ↔ x ∈ (rec2 v2 v1 p).1))
    (kf ks : List (String × Conf)) (common1 common2 : List String)
    (hc : ∀ k, k ∈ common1 ↔ k ∈ common2) (pre : Option String) (x : String) :
    (x ∈ (diffCommonF rec1 kf ks common1 pre).1 ↔
      x ∈ (diffCommonF rec2 ks kf common2 pre).2) ∧
    (x ∈ (diffCommonF rec1 kf ks common1 pre).2 ↔
      x ∈ (diffCommonF rec2 ks kf common2 pre).1) := by
  unfold diffCommonF
  simp only [List.mem_flatMap]
  constructor
  · constructor
    · rintro ⟨k, hk, hx⟩
      exact ⟨k, (hc k).mp hk, (keyDiff_symm rec1 rec2 hsym kf ks pre k x).1.mp hx⟩
    · rintro ⟨k, hk, hx⟩
      exact ⟨k, (hc k).mpr hk, (keyDiff_symm rec1 rec2 hsym kf ks pre k x).1.mpr hx⟩
  · constructor
    · rintro ⟨k, hk, hx⟩
      exact ⟨k, (hc k).mp hk, (keyDiff_symm rec1 rec2 hsym kf ks pre k x).2.mp hx⟩
    · rintro ⟨k, hk, hx⟩
      exact ⟨k, (hc k).mpr hk, (keyDiff_symm rec1 rec2 hsym kf ks pre k x).2.mpr hx⟩

theorem idxDiff_symm (rec1 rec2 : Conf → Conf → Option String → List String × List String)
    (hsym : ∀ (v1 v2 : Conf) (p : Option String) (x : String),
      (x ∈ (rec1 v1 v2 p).1 ↔ x ∈ (rec2 v2 v1 p).2) ∧
      (x ∈ (rec1 v1 v2 p).2 ↔ x ∈ (rec2 v2 v1 p).1))
    (pre : Option String) (i : Nat) (a b : Conf) (x : String) :
    (x ∈ (idxDiff rec1 pre i a b).1 ↔ x ∈ (idxDiff rec2 pre i b a).2) ∧
    (x ∈ (idxDiff rec1 pre i a b).2 ↔ x ∈ (idxDiff rec2 pre i b a).1) := by
  unfold idxDiff
  by_cases hcc : (isConfigNode a && isConfigNode b) = true
  · have hcc' : (isConfigNode b && isConfigNode a) = true := by
      rw [Bool.and_comm] at hcc; exact hcc
    simp only [hcc, hcc', if_true]
    exact hsym a b _ x
  · have hcc' : ¬(isConfigNode b && isConfigNode a) = true := by
      rw [Bool.and_comm] at hcc; exact hcc
    simp [hcc, hcc']

theorem diffListF_symm
    (rec1 rec2 : Conf → Conf → Option String → List String × List String)
    (hsym : ∀ (v1 v2 : Conf) (p : Option String) (x : String),
      (x ∈ (rec1 v1 v2 p).1 ↔ x ∈ (rec2 v2 v1 p).2) ∧
      (x ∈ (rec1 v1 v2 p).2 ↔ x ∈ (rec2 v2 v1 p).1)) :
    ∀ (xf xs : List Conf) (i : Nat) (pre : Option String) (x : String),
      (x ∈ (diffListF rec1 xf xs i pre).1 ↔ x ∈ (diffListF rec2 xs xf i pre).2) ∧
      (x ∈ (diffListF rec1 xf xs i pre).2 ↔ x ∈ (diffListF rec2 xs xf i pre).1) := by
  intro xf
  induction xf with
  | nil =>
    intro xs i pre x
    cases xs <;> simp [diffListF]
  | cons a xf ih =>
    intro xs i pre x
    cases xs with
    | nil => simp [diffListF]
    | cons b xs =>
      have hhead := idxDiff_symm rec1 rec2 hsym pre i a b x
      have htail := ih xs (i + 1) pre x
      simp only [diffListF, List.mem_append]
      constructor
      · rw [hhead.1, htail.1]
      · rw [hhead.2, htail.2]

theorem diffF_symm :
    ∀ (fuel : Nat) (f s : Conf) (pre : Option String) (x : String),
      (x ∈ (diffF fuel f s pre).1 ↔ x ∈ (diffF fuel s f pre).2) ∧
      (x ∈ (diffF fuel f s pre).2 ↔ x ∈ (diffF fuel s f pre).1) := by
  intro fuel
  induction fuel with
  | zero =>
    intro f s pre x
    simp [diffF]
  | succ fuel ih =>
    intro f s pre x
    cases f with
    | leaf v => cases s <;> simp [diffF]
    | dict kf =>
      cases s with
      | leaf v => simp [diffF]
      | arr xs => simp [diffF]
      | dict ks =>
        have hcommon : ∀ k, k ∈ (keysOf kf).filter (fun k => (keysOf ks).contains k) ↔
            k ∈ (keysOf ks).filter (fun k => (keysOf kf).contains k) := by
          intro k
          simp only [List.mem_filter, List.elem_iff]
          tauto
        have hc := diffCommonF_symm (fun a b p => diffF fuel a b p)
          (fun a b p => diffF fuel a b p) (fun v1 v2 p y => ih v1 v2 p y)
          kf ks _ _ hcommon pre x
        simp only [diffF, List.mem_append]
        constructor
        · rw [hc.1]
        · rw [hc.2]
    | arr xf =>
      cases s with
      | leaf v => simp [diffF]
      | dict ks => simp [diffF]
      | arr xs =>
        have hl := diffListF_symm (fun a b p => diffF fuel a b p)
          (fun a b p => diffF fuel a b p) (fun v1 v2 p y => ih v1 v2 p y)
          xf xs 0 pre x
        simp only [diffF, List.mem_append]
        constructor
        · rw [hl.1]
        · rw [hl.2]

theorem confFuel_pos (f : Conf) : 1 ≤ confFuel f := by
  cases f <;> simp [confFuel]

theorem lookupConf_fuel_le (kvs : List (String × Conf)) (k : String) (v : Conf) :
    lookupConf kvs k = some v → confFuel v ≤ kvFuel kvs := by
  induction kvs with
  | nil =>
    intro h
    simp [lookupConf] at h
  | cons p rest ih =>
    intro h
    obtain ⟨k', v'⟩ := p
    simp only [lookupConf] at h
    by_cases hk : (k' == k) = true
    · rw [if_pos hk] at h
      obtain rfl : v' = v := by injection h
      simp [kvFuel]
      omega
    · rw [if_neg hk] at h
      have := ih h
      simp [kvFuel]
      omega

theorem mem_clFuel_le (xs : List Conf) (x : Conf) (h : x ∈ xs) :
    confFuel x ≤ clFuel xs := by
  induction xs with
  | nil => cases h
  | cons a rest ih =>
    rcases List.mem_cons.mp h with rfl | h'
    · simp [clFuel]
      omega
    · have := ih h'
      simp [clFuel]
      omega

theorem keyDiff_congr (rec1 rec2 : Conf → Conf → Option String → List String × List String)
    (kf ks : List (String × Conf)) (pre : Option String) (k : String)
    (h : ∀ (v1 v2 : Conf) (p : Option String), lookupConf kf k = some v1 →
      lookupConf ks k = some v2 → rec1 v1 v2 p = rec2 v1 v2 p) :
    keyDiff rec1 kf ks pre k = keyDiff rec2 kf ks pre k := by
  unfold keyDiff
  cases h1 : lookupConf kf k with
  | none => cases h2 : lookupConf ks k <;> rfl
  | some v1 =>
    cases h2 : lookupConf ks k with
    | none => rfl
    | some v2 =>
      by_cases hm : (isMissingNode v1 || isMissingNode v2) = true
      · simp [hm]
      · by_cases hcc : (isConfigNode v1 && isConfigNode v2) = true
        · simp only [hm, hcc, if_true, if_false, Bool.false_eq_true]
          exact h v1 v2 _ h1 h2
        · simp [hm, hcc]

theorem diffCommonF_congr
    (rec1 rec2 : Conf → Conf → Option String → List String × List String)
    (kf ks : List (String × Conf)) (common : List String) (pre : Option String)
    (h : ∀ k ∈ common, keyDiff rec1 kf ks pre k = keyDiff rec2 kf ks pre k) :
    diffCommonF rec1 kf ks common pre = diffCommonF rec2 kf ks common pre := by
  induction common with
  | nil => rfl
  | cons k rest ih =>
    have hk := h k (by simp)
    have ih' := ih (fun k' hk' => h k' (List.mem_cons_of_mem _ hk'))
    have e1 := congrArg Prod.fst ih'
    have e2 := congrArg Prod.snd ih'
    simp only [diffCommonF] at e1 e2
    simp only [diffCommonF, List.flatMap_cons]
    rw [hk, e1, e2]

theorem diffListF_congr
    (rec1 rec2 : Conf → Conf → Option String → List String × List String) :
    ∀ (xf xs : List Conf) (i : Nat) (pre : Option String),
      (∀ x ∈ xf, ∀ y ∈ xs, ∀ p, rec1 x y p = rec2 x y p) →
      diffListF rec1 xf xs i pre = diffListF rec2 xf xs i pre := by
  intro xf
  induction xf with
  | nil =>
    intro xs i pre _
    cases xs <;> rfl
  | cons a xf ih =>
    intro xs i pre h
    cases xs with
    | nil => rfl
    | cons b xs =>
      have hh : idxDiff rec1 pre i a b = idxDiff rec2 pre i a b := by
        unfold idxDiff
        by_cases hcc : (isConfigNode a && isConfigNode b) = true
        · simp only [hcc, if_true]
          exact h a (by simp) b (by simp) _
        · simp [hcc]
      have ht := ih xs (i + 1) pre (fun x hx y hy p => h x (by simp [hx]) y (by simp [hy]) p)
      simp only [diffListF]
      rw [hh, ht]

theorem diffF_stable :
    ∀ (n fuel1 fuel2 : Nat) (f s : Conf) (pre : Option String),
      confFuel f + confFuel s ≤ n →
      confFuel f + confFuel s ≤ fuel1 →
      confFuel f + confFuel s ≤ fuel2 →
      diffF fuel1 f s pre = diffF fuel2 f s pre := by
  intro n
  induction n with
  | zero =>
    intro fuel1 fuel2 f s pre hn _ _
    have := confFuel_pos f
    have := confFuel_pos s
    omega
  | succ n ih =>
    intro fuel1 fuel2 f s pre hn h1 h2
    have hp1 := confFuel_pos f
    have hp2 := confFuel_pos s
    obtain ⟨a, rfl⟩ : ∃ a, fuel1 = a + 1 := ⟨fuel1 - 1, by omega⟩
    obtain ⟨b, rfl⟩ : ∃ b, fuel2 = b + 1 := ⟨fuel2 - 1, by omega⟩
    cases f with
    | leaf v => cases s <;> rfl
    | dict kf =>
      cases s with
      | leaf v => rfl
      | arr xs => rfl
      | dict ks =>
        have hkf : confFuel (Conf.dict kf) = 1 + kvFuel kf := by simp [confFuel]
        have hks : confFuel (Conf.dict ks) = 1 + kvFuel ks := by simp [confFuel]
        have hcong : diffCommonF (fun x y p => diffF a x y p) kf ks
            ((keysOf kf).filter (fun k => (keysOf ks).contains k)) pre =
          diffCommonF (fun x y p => diffF b x y p) kf ks
            ((keysOf kf).filter (fun k => (keysOf ks).contains k)) pre := by
          apply diffCommonF_congr
          intro k _
          apply keyDiff_congr
          intro v1 v2 p hv1 hv2
          have b1 := lookupConf_fuel_le kf k v1 hv1
          have b2 := lookupConf_fuel_le ks k v2 hv2
          exact ih a b v1 v2 p (by omega) (by omega) (by omega)
        simp only [diffF]
        rw [hcong]
    | arr xf =>
      cases s with
      | leaf v => rfl
      | dict ks => rfl
      | arr xs =>
        have hxf : confFuel (Conf.arr xf) = 1 + clFuel xf := by simp [confFuel]
        have hxs : confFuel (Conf.arr xs) = 1 + clFuel xs := by simp [confFuel]
        have hcong : diffListF (fun x y p => diffF a x y p) xf xs 0 pre =
            diffListF (fun x y p => diffF b x y p) xf xs 0 pre := by
          apply diffListF_congr
          intro x hx y hy p
          have b1 := mem_clFuel_le xf x hx
          have b2 := mem_clFuel_le xs y hy
          exact ih a b x y p (by omega) (by omega) (by omega)
        simp only [diffF]
        rw [hcong]

/-- Adequacy of the fuel choice in `diff_configs`: any fuel at least the total
node count computes the same value, so the embedded function is the limit of
the fuelled recursion. -/
theorem diff_configs_eq_diffF (f s : Conf) (pre : Option String) (fuel : Nat)
    (h : confFuel f + confFuel s ≤ fuel) :
    diffF fuel f s pre = diff_configs f s pre :=
  diffF_stable (confFuel f + confFuel s) fuel (confFuel f + confFuel s) f s pre
    le_rfl h le_rfl

/-- C7: config diffing is symmetric with swapped report direction — the
(added, removed) pair returned by `diff_configs A B` equals, as a pair of
sets of reported lines, the swapped (removed, added) pair returned by
`diff_configs B A`. -/
theorem diff_configs_symmetric (a b : Conf) (pre : Option String) :
    (∀ x, x ∈ (diff_configs a b pre).1 ↔ x ∈ (diff_configs b a pre).2) ∧
    (∀ x, x ∈ (diff_configs a b pre).2 ↔ x ∈ (diff_configs b a pre).1) := by
  unfold diff_configs
  rw [Nat.add_comm (confFuel b) (confFuel a)]
  exact ⟨fun x => (diffF_symm _ a b pre x).1, fun x => (diffF_symm _ a b pre x).2⟩

/-- C6: `save_config` writes the config when none is persisted; when a prior
config exists and the structural diff is empty it leaves the persisted file
unchanged and logs nothing; when any path differs it overwrites the persisted
file with the new config and logs the added lines (marked `+`) and the
deleted lines (marked `-`). -/
theorem save_config_spec (raw : Conf) :
    (save_config none raw = (some raw, [])) ∧
    (∀ old : Conf, diff_configs raw old none = ([], []) →
      save_config (some old) raw = (some old, [])) ∧
    (∀ old : Conf, diff_configs raw old none ≠ ([], []) →
      save_config (some old) raw =
        (some raw,
          (diff_configs raw old none).1.map (fun k => "+ " ++ k) ++
            (diff_configs raw old none).2.map (fun k => "- " ++ k))) := by
  refine ⟨rfl, fun old h => ?_, fun old h => ?_⟩
  · simp [save_config, h]
  · have hne : (diff_configs raw old none).1 ≠ [] ∨ (diff_configs raw old none).2 ≠ [] := by
      by_contra hcon
      push_neg at hcon
      exact h (Prod.ext_iff.mpr ⟨hcon.1, hcon.2⟩)
    have hcond : (!(diff_configs raw old none).1.isEmpty ||
        !(diff_configs raw old none).2.isEmpty) = true := by
      rcases hne with h1 | h1 <;> simp [List.isEmpty_iff, h1]
    simp [save_config, hcond]

/-- C6 witness: the spec's scenario — storing `{"a":1,"b":2}` and then saving
`{"a":1,"c":3}` overwrites the file with the new config and warns with
`+ None.c` / `- None.b`; re-saving an identical config changes nothing. -/
theorem save_config_spec_witness :
    (diff_configs (Conf.dict [("a", Conf.leaf (CLeaf.int 1)), ("c", Conf.leaf (CLeaf.int 3))])
        (Conf.dict [("a", Conf.leaf (CLeaf.int 1)), ("b", Conf.leaf (CLeaf.int 2))]) none ≠
      ([], [])) ∧
    save_config
        (some (Conf.dict [("a", Conf.leaf (CLeaf.int 1)), ("b", Conf.leaf (CLeaf.int 2))]))
        (Conf.dict [("a", Conf.leaf (CLeaf.int 1)), ("c", Conf.leaf (CLeaf.int 3))]) =
      (some (Conf.dict [("a", Conf.leaf (CLeaf.int 1)), ("c", Conf.leaf (CLeaf.int 3))]),
        ["+ None.c", "- None.b"]) ∧
    (diff_configs (Conf.dict [("a", Conf.leaf (CLeaf.int 1))])
        (Conf.dict [("a", Conf.leaf (CLeaf.int 1))]) none = ([], [])) ∧
    save_config (some (Conf.dict [("a", Conf.leaf (CLeaf.int 1))]))
        (Conf.dict [("a", Conf.leaf (CLeaf.int 1))]) =
      (some (Conf.dict [("a", Conf.leaf (CLeaf.int 1))]), []) := by
  have h2 := (save_config_spec
      (Conf.dict [("a", Conf.leaf (CLeaf.int 1)), ("c", Conf.leaf (CLeaf.int 3))])).2.2
    (Conf.dict [("a", Conf.leaf (CLeaf.int 1)), ("b", Conf.leaf (CLeaf.int 2))]) (by decide)
  have h1 := (save_config_spec (Conf.dict [("a", Conf.leaf (CLeaf.int 1))])).2.1
    (Conf.dict [("a", Conf.leaf (CLeaf.int 1))]) (by decide)
  exact ⟨by decide, h2, by decide, h1⟩

/-- C8 counterexample: the lists `[1]` and `[2]` disagree at the common index
0 on scalar leaves that are unequal under normalization, yet `diff_configs`
reports no difference at all — contradicting the claim that unequal scalar
leaves at a common index are reported. -/
theorem diff_configs_list_scalar_counterexample :
    scalarNe (castEnums (Conf.leaf (CLeaf.int 1))) (castEnums (Conf.leaf (CLeaf.int 2))) =
      true ∧
    diff_configs (Conf.arr [Conf.leaf (CLeaf.int 1)]) (Conf.arr [Conf.leaf (CLeaf.int 2)])
      none = ([], []) :=
  ⟨by decide, rfl⟩

theorem diffListF_eq_seqDiffClaimed (M : Nat) :
    ∀ (xf xs : List Conf) (i : Nat) (pre : Option String),
      (∀ x ∈ xf, ∀ y ∈ xs, confFuel x + confFuel y ≤ M) →
      diffListF (fun a b p => diffF M a b p) xf xs i pre = seqDiffClaimed xf xs i pre := by
  intro xf
  induction xf with
  | nil =>
    intro xs i pre _
    cases xs <;> rfl
  | cons x xf ih =>
    intro xs i pre h
    cases xs with
    | nil => rfl
    | cons y xs =>
      have hh : idxDiff (fun a b p => diffF M a b p) pre i x y =
          (if isConfigNode x && isConfigNode y then
            diff_configs x y
              (some (match pre with | none => toString i | some p => p ++ "." ++ toString i))
          else ([], [])) := by
        unfold idxDiff
        by_cases hcc : (isConfigNode x && isConfigNode y) = true
        · simp only [hcc, if_true]
          exact diff_configs_eq_diffF x y _ M (h x (by simp) y (by simp))
        · simp [hcc]
      have ht := ih xs (i + 1) pre (fun a ha b hb => h a (by simp [ha]) b (by simp [hb]))
      simp only [diffListF, seqDiffClaimed]
      rw [hh, ht]

theorem seqDiffClaimed_no_container_pairs :
    ∀ (xf xs : List Conf) (i : Nat) (pre : Option String),
      (∀ p ∈ xf.zip xs, isConfigNode p.1 = false ∨ isConfigNode p.2 = false) →
      seqDiffClaimed xf xs i pre = ([], []) := by
  intro xf
  induction xf with
  | nil =>
    intro xs i pre _
    cases xs <;> rfl
  | cons x xf ih =>
    intro xs i pre h
    cases xs with
    | nil => rfl
    | cons y xs =>
      have hxy := h (x, y) (by simp)
      have hg : (isConfigNode x && isConfigNode y) = false := by
        rcases hxy with h1 | h1 <;> simp [h1]
      have ht := ih xs (i + 1) pre (fun p hp => h p (by simp [hp]))
      simp [seqDiffClaimed, hg, ht]

/-- C8 amended: when `diff_configs` compares two sequence nodes it first
reports the extra trailing elements of the longer side as additions
attributed to that side, and then walks the common indices exactly as
`seqDiffClaimed` describes — recursing, with the full `diff_configs`, only
into pairs where both elements are containers.  Consequently (second
conjunct), whenever no common index holds two containers — in particular for
scalar leaves at common indices, however unequal under normalization — the
common walk reports nothing at all. -/
theorem diff_configs_sequence_behavior (xf xs : List Conf) (pre : Option String) :
    (diff_configs (Conf.arr xf) (Conf.arr xs) pre =
      ((if xs.length < xf.length then (xf.drop xs.length).map (get_diff_string pre)
            else []) ++ (seqDiffClaimed xf xs 0 pre).1,
        (if xf.length < xs.length then (xs.drop xf.length).map (get_diff_string pre)
            else []) ++ (seqDiffClaimed xf xs 0 pre).2)) ∧
    ((∀ p ∈ xf.zip xs, isConfigNode p.1 = false ∨ isConfigNode p.2 = false) →
      seqDiffClaimed xf xs 0 pre = ([], [])) := by
  constructor
  · obtain ⟨M, hM⟩ : ∃ M, confFuel (Conf.arr xf) + confFuel (Conf.arr xs) = M + 1 := by
      refine ⟨confFuel (Conf.arr xf) + confFuel (Conf.arr xs) - 1, ?_⟩
      have h1 : confFuel (Conf.arr xf) = 1 + clFuel xf := by simp [confFuel]
      omega
    have hMval : clFuel xf + clFuel xs ≤ M := by
      have h1 : confFuel (Conf.arr xf) = 1 + clFuel xf := by simp [confFuel]
      have h2 : confFuel (Conf.arr xs) = 1 + clFuel xs := by simp [confFuel]
      omega
    have hbound : ∀ x ∈ xf, ∀ y ∈ xs, confFuel x + confFuel y ≤ M := by
      intro x hx y hy
      have hb1 := mem_clFuel_le xf x hx
      have hb2 := mem_clFuel_le xs y hy
      omega
    unfold diff_configs
    rw [hM]
    simp only [diffF]
    rw [diffListF_eq_seqDiffClaimed M xf xs 0 pre hbound]
  · exact seqDiffClaimed_no_container_pairs xf xs 0 pre

/-- C8 amended witness: for the scalar lists `[1, 7]` against `[2]` the
common-pair hypothesis holds, the common walk reports nothing, and the diff
is exactly the trailing extra `7`; for the mixed lists
`[{"k":1}, 5]` against `[{"k":2}, 6]` the container pair at index 0 is
recursed into (reporting `0.k=1` / `0.k=2`) while the unequal scalar pair at
index 1 stays silent. -/
theorem diff_configs_sequence_behavior_witness :
    (∀ p ∈ ([Conf.leaf (CLeaf.int 1), Conf.leaf (CLeaf.int 7)].zip
        [Conf.leaf (CLeaf.int 2)]), isConfigNode p.1 = false ∨ isConfigNode p.2 = false) ∧
    seqDiffClaimed [Conf.leaf (CLeaf.int 1), Conf.leaf (CLeaf.int 7)]
      [Conf.leaf (CLeaf.int 2)] 0 none = ([], []) ∧
    diff_configs (Conf.arr [Conf.leaf (CLeaf.int 1), Conf.leaf (CLeaf.int 7)])
      (Conf.arr [Conf.leaf (CLeaf.int 2)]) none = (["None=7"], []) ∧
    diff_configs
        (Conf.arr [Conf.dict [("k", Conf.leaf (CLeaf.int 1))], Conf.leaf (CLeaf.int 5)])
        (Conf.arr [Conf.dict [("k", Conf.leaf (CLeaf.int 2))], Conf.leaf (CLeaf.int 6)])
        none = (["0.k=1"], ["0.k=2"]) := by
  have h := diff_configs_sequence_behavior
    [Conf.leaf (CLeaf.int 1), Conf.leaf (CLeaf.int 7)] [Conf.leaf (CLeaf.int 2)] none
  have h2 := diff_configs_sequence_behavior
    [Conf.dict [("k", Conf.leaf (CLeaf.int 1))], Conf.leaf (CLeaf.int 5)]
    [Conf.dict [("k", Conf.leaf (CLeaf.int 2))], Conf.leaf (CLeaf.int 6)] none
  refine ⟨by decide, h.2 (by decide), ?_, ?_⟩
  · rw [h.1]
    rfl
  · rw [h2.1]
    rfl

/-- C9 counterexample: a worker that is not the master rank still performs
the config-store write — `BaseTrainer.save_config` delegates to the
module-level `save_config` with no `is_master()` guard, so a non-master call
against a directory with no persisted config still persists one. -/
theorem trainer_save_config_nonmaster_counterexample :
    (trainer_save_config false none (Conf.dict [("a", Conf.leaf (CLeaf.int 1))])).1 =
      some (Conf.dict [("a", Conf.leaf (CLeaf.int 1))]) ∧
    (none : Option Conf) ≠ some (Conf.dict [("a", Conf.leaf (CLeaf.int 1))]) :=
  ⟨rfl, by simp⟩

/-- C9 amended: `save_checkpoint` on a non-master worker leaves the
filesystem entirely unchanged and performs no effects (no bundle file, no
alias change, no ckpt lock file); the trainer-level config-store write,
however, is not rank-guarded — it behaves identically regardless of rank, so
primary-rank-only config writing holds only by call-site convention. -/
theorem master_only_checkpoint_writes :
    (∀ (α : Type) (only_recent : Bool) (st : State) (m t o l : α) (fs : CkptFS α),
      save_checkpoint false only_recent st m t o l fs = (fs, [])) ∧
    (∀ (is_m : Bool) (stored : Option Conf) (raw : Conf),
      trainer_save_config is_m stored raw = save_config stored raw) :=
  ⟨fun _ _ _ _ _ _ _ _ => rfl, fun _ _ _ => rfl⟩

/-- C10: `should_checkpoint` is false whenever `save_every_n_steps` is `None`;
for a non-zero interval `n` it is true exactly when `num_steps % n = 0`, and
in particular it is true at `num_steps = 0`. -/
theorem should_checkpoint_spec :
    (∀ (osr : Bool) (st : State),
      should_checkpoint ⟨none, osr⟩ st = false) ∧
    (∀ (osr : Bool) (st : State) (n : Int), n ≠ 0 →
      (should_checkpoint ⟨some n, osr⟩ st = true ↔ st.num_steps % n = 0)) ∧
    (∀ (osr : Bool) (st : State) (n : Int), n ≠ 0 → st.num_steps = 0 →
      should_checkpoint ⟨some n, osr⟩ st = true) := by
  refine ⟨fun osr st => rfl, fun osr st n hn => ?_, fun osr st n hn h0 => ?_⟩
  · simp [should_checkpoint]
  · simp [should_checkpoint, h0]

/-- C10 witness: with `save_every_n_steps = 4`, checkpointing triggers at step
8 and at step 0 of the initial state. -/
theorem should_checkpoint_spec_witness :
    should_checkpoint ⟨some 4, false⟩ { State.init_state with num_steps := 8 } = true ∧
      should_checkpoint ⟨some 4, false⟩ State.init_state = true := by
  constructor
  · exact (should_checkpoint_spec.2.1 false
      { State.init_state with num_steps := 8 } 4 (by decide)).mpr (by decide)
  · exact should_checkpoint_spec.2.2 false State.init_state 4 (by decide) (by decide)

end Ml
